import Mathlib

/-!
Verification of the backtesting core of the stock-analysis repository.

The definitions below are a shallow embedding of the Python sources:
* `src/backtesting/strategy_base.py` (Signal, Position, trade execution,
  portfolio snapshots, initialize/reset),
* `src/backtesting/engine.py` (BacktestEngine construction, the replay
  loop of `run_backtest`, slippage, the Sharpe-ratio helper and the FIFO
  trade statistics),
* `src/utils/metrics.py` (`_calculate_round_trip_pnl`),
* `src/strategies/fibonacci_macd_strategy.py` (buy-condition confidence),
* `src/config.py` (TradingConfig defaults).

Python floats are modelled by `ℚ`, timestamps by `ℤ` (a day number, so a
difference of timestamps is a number of days), share quantities by `ℤ`
(Python `int`), and the per-symbol dictionaries by association lists of
`String × _` (python dicts preserve insertion order; lookups take the
first matching key, insertion of a fresh key appends, assignment to a
present key rewrites it in place).  Fallible code returns `Except`.
-/

namespace Backtest

abbrev Symbol := String

/-- Embeds `SignalType` from `strategy_base.py` (`BUY = 1`, `SELL = -1`, `HOLD = 0`). -/
inductive SignalType where
  | BUY
  | SELL
  | HOLD
deriving DecidableEq, Repr

/-- The `Signal` dataclass of `strategy_base.py` (the `metadata` dict carries
no engine-relevant information and is omitted). -/
structure Signal where
  timestamp : Int
  symbol : Symbol
  signal_type : SignalType
  price : ℚ
  confidence : ℚ
deriving DecidableEq, Repr

/-- The `Position` dataclass of `strategy_base.py`. -/
structure Position where
  symbol : Symbol
  quantity : Int
  entry_price : ℚ
  entry_date : Int
  current_price : ℚ
  unrealized_pnl : ℚ
deriving DecidableEq, Repr

/-- The `action` field of a recorded trade dict (`'BUY'` / `'SELL'`). -/
inductive TradeAction where
  | BUY
  | SELL
deriving DecidableEq, Repr

/-- One entry of `self.trades` in `strategy_base.py`: the dict appended by
`_execute_buy` / `_execute_sell`.  `amount` is `total_cost` for buys and
`proceeds` for sells. -/
structure Trade where
  timestamp : Int
  symbol : Symbol
  action : TradeAction
  quantity : Int
  price : ℚ
  commission : ℚ
  amount : ℚ
deriving DecidableEq, Repr

/-- One entry of `self.portfolio_history`, appended by
`record_portfolio_state` in `strategy_base.py`. -/
structure Snapshot where
  timestamp : Int
  cash : ℚ
  positions_value : ℚ
  total_value : ℚ
  num_positions : Nat
deriving DecidableEq, Repr

/-- The mutable state of a `StrategyBase` instance: exactly the fields
assigned in `StrategyBase.__init__` (minus `self.data`, which is stored by
`initialize` but never read by the core, and `self.parameters`/`self.name`,
which are immutable). -/
structure StrategyState where
  cash : ℚ
  positions : List (Symbol × Position)
  signals : List Signal
  trades : List Trade
  portfolio_history : List Snapshot
  portfolio_value : ℚ
  current_date : Option Int
deriving DecidableEq

/-- One row of the market-data frame, as read by the engine loop: the index
timestamp, the `symbol` column and the `close` column. -/
structure Row where
  timestamp : Int
  symbol : Symbol
  close : ℚ
deriving DecidableEq, Repr

/-- The pluggable behaviour of a concrete strategy subclass: pure versions
of the `generate_signals` and `calculate_position_size` methods.  Both
receive the instance state (the methods read `self.positions`, `self.cash`,
…); `generate_signals` may raise, which the engine catches per timestamp. -/
structure StrategySpec where
  generate_signals : StrategyState → List Row → Except String (List Signal)
  calculate_position_size : StrategyState → Signal → ℚ → Int

/-! ### Association-list helpers (python dict semantics) -/

/-- First-match lookup in a `Symbol`-keyed association list. -/
def lookupPos : List (Symbol × Position) → Symbol → Option Position
  | [], _ => none
  | (k, p) :: rest, sym => if k = sym then some p else lookupPos rest sym

/-- Rewrite the value stored under a present key (python `d[k] = v` for a
key already in the dict: position and order are preserved). -/
def replacePos (ps : List (Symbol × Position)) (sym : Symbol) (p : Position) :
    List (Symbol × Position) :=
  ps.map (fun e => if e.1 = sym then (sym, p) else e)

/-- Delete a key (python `del d[k]`). -/
def removePos (ps : List (Symbol × Position)) (sym : Symbol) :
    List (Symbol × Position) :=
  ps.filter (fun e => e.1 ≠ sym)

/-! ### Trade execution (`strategy_base.py`) -/

/-- Embeds `StrategyBase._execute_buy`. -/
def executeBuy (strat : StrategySpec) (s : StrategyState) (sig : Signal)
    (commission : ℚ) : StrategyState :=
  let position_size := strat.calculate_position_size s sig s.cash
  if 0 < position_size then
    let cost := (position_size : ℚ) * sig.price + commission
    if cost ≤ s.cash then
      let positions :=
        match lookupPos s.positions sig.symbol with
        | some existing_pos =>
            let total_quantity := existing_pos.quantity + position_size
            let avg_price := ((existing_pos.quantity : ℚ) * existing_pos.entry_price
                + (position_size : ℚ) * sig.price) / (total_quantity : ℚ)
            replacePos s.positions sig.symbol
              { existing_pos with quantity := total_quantity, entry_price := avg_price }
        | none =>
            s.positions ++ [(sig.symbol,
              { symbol := sig.symbol
                quantity := position_size
                entry_price := sig.price
                entry_date := sig.timestamp
                current_price := sig.price
                unrealized_pnl := 0 })]
      { s with
          positions := positions
          cash := s.cash - cost
          trades := s.trades ++
            [{ timestamp := sig.timestamp, symbol := sig.symbol, action := .BUY
               quantity := position_size, price := sig.price
               commission := commission, amount := cost }] }
    else s
  else s

/-- Embeds `StrategyBase._execute_sell`. -/
def executeSell (strat : StrategySpec) (s : StrategyState) (sig : Signal)
    (commission : ℚ) : StrategyState :=
  match lookupPos s.positions sig.symbol with
  | none => s
  | some position =>
      let sell_quantity := min |strat.calculate_position_size s sig s.cash| position.quantity
      if 0 < sell_quantity then
        let proceeds := (sell_quantity : ℚ) * sig.price - commission
        let new_quantity := position.quantity - sell_quantity
        let positions :=
          if new_quantity ≤ 0 then removePos s.positions sig.symbol
          else replacePos s.positions sig.symbol { position with quantity := new_quantity }
        { s with
            cash := s.cash + proceeds
            positions := positions
            trades := s.trades ++
              [{ timestamp := sig.timestamp, symbol := sig.symbol, action := .SELL
                 quantity := sell_quantity, price := sig.price
                 commission := commission, amount := proceeds }] }
      else s

/-- Embeds `StrategyBase.execute_signal`. -/
def executeSignal (strat : StrategySpec) (s : StrategyState) (sig : Signal)
    (commission : ℚ) : StrategyState :=
  match sig.signal_type with
  | .BUY => executeBuy strat s sig commission
  | .SELL => executeSell strat s sig commission
  | .HOLD => s

/-- Sequential execution of a list of signals (the engine's inner loop over
`signals`, specialised to the state updates). -/
def execSignals (strat : StrategySpec) (commission : ℚ) (s : StrategyState)
    (sigs : List Signal) : StrategyState :=
  sigs.foldl (fun st sig => executeSignal strat st sig commission) s

/-! ### Portfolio valuation and snapshots (`strategy_base.py`) -/

/-- Embeds `StrategyBase.update_positions`: positions whose symbol has a price at
the current date get `current_price` (and `unrealized_pnl`) refreshed;
the others keep their previous mark. -/
def updatePositions (ps : List (Symbol × Position)) (prices : List (Symbol × ℚ)) :
    List (Symbol × Position) :=
  ps.map (fun e =>
    match prices.lookup e.1 with
    | some pr => (e.1, { e.2 with
        current_price := pr
        unrealized_pnl := (pr - e.2.entry_price) * (e.2.quantity : ℚ) })
    | none => e)

/-- The `positions_value` sum inside `StrategyBase.get_portfolio_value`. -/
def positionsValue (ps : List (Symbol × Position)) : ℚ :=
  (ps.map (fun e => (e.2.quantity : ℚ) * e.2.current_price)).sum

/-- Embeds `StrategyBase.record_portfolio_state` (which first refreshes the marks
via `get_portfolio_value` and then appends one snapshot). -/
def recordPortfolioState (s : StrategyState) (t : Int)
    (prices : List (Symbol × ℚ)) : StrategyState :=
  let ps := updatePositions s.positions prices
  let value := s.cash + positionsValue ps
  { s with
      positions := ps
      portfolio_history := s.portfolio_history ++
        [{ timestamp := t, cash := s.cash, positions_value := value - s.cash
           total_value := value, num_positions := ps.length }]
      portfolio_value := value }

/-- Embeds `StrategyBase.initialize`: overwrites cash, portfolio value, positions,
signals, trades and history.  As in the source, `current_date` is NOT
touched by initialize (only `reset` clears it). -/
def initState (s : StrategyState) (initial_cash : ℚ) : StrategyState :=
  { s with
      cash := initial_cash
      portfolio_value := initial_cash
      positions := []
      signals := []
      trades := []
      portfolio_history := [] }

/-- Embeds `StrategyBase.reset`: clears every mutable field. -/
def resetState (s : StrategyState) : StrategyState :=
  { s with
      signals := []
      positions := []
      trades := []
      portfolio_history := []
      cash := 0
      portfolio_value := 0
      current_date := none }

/-- The state produced by `StrategyBase.__init__`. -/
def freshState : StrategyState :=
  { cash := 0, positions := [], signals := [], trades := []
    portfolio_history := [], portfolio_value := 0, current_date := none }

/-! ### Engine construction (`engine.py` / `config.py`) -/

/-- Embeds `TradingConfig.initial_capital` (100000.0). -/
def configInitialCapital : ℚ := 100000

/-- Embeds `TradingConfig.commission` (0.001). -/
def configCommission : ℚ := 1 / 1000

/-- Embeds `TradingConfig.slippage` (0.0005). -/
def configSlippage : ℚ := 1 / 2000

/-- Python's `x or default` applied to a float-or-None argument: `None` and
`0.0` are falsy, every other float is truthy. -/
def orDefault (x : Option ℚ) (d : ℚ) : ℚ :=
  match x with
  | none => d
  | some v => if v = 0 then d else v

/-- The engine parameters set by `BacktestEngine.__init__`. -/
structure BacktestEngine where
  initial_capital : ℚ
  commission : ℚ
  slippage : ℚ
deriving DecidableEq, Repr

/-- Embeds `BacktestEngine.__init__(initial_capital, commission, slippage)` with its
`x or config.y` fallbacks. -/
def mkBacktestEngine (initial_capital commission slippage : Option ℚ) :
    BacktestEngine :=
  { initial_capital := orDefault initial_capital configInitialCapital
    commission := orDefault commission configCommission
    slippage := orDefault slippage configSlippage }

/-- Embeds `BacktestEngine._apply_slippage`. -/
def applySlippage (eng : BacktestEngine) (price : ℚ) : SignalType → ℚ
  | .BUY => price * (1 + eng.slippage)
  | .SELL => price * (1 - eng.slippage)
  | .HOLD => price

/-! ### The replay loop (`engine.py`, `run_backtest`) -/

/-- Embeds `BacktestEngine._filter_data_by_date`. -/
def filterByDate (data : List Row) (start_date end_date : Option Int) : List Row :=
  let d1 := match start_date with
    | some a => data.filter (fun r => a ≤ r.timestamp)
    | none => data
  match end_date with
  | some b => d1.filter (fun r => r.timestamp ≤ b)
  | none => d1

/-- Embeds `sorted(data.index.unique())`: the unique timestamps, ascending. -/
def datesOf (data : List Row) : List Int :=
  ((data.map (fun r => r.timestamp)).dedup).insertionSort (· ≤ ·)

/-- The point-in-time slice `data[data.index <= current_date]`. -/
def histAt (data : List Row) (t : Int) : List Row :=
  data.filter (fun r => r.timestamp ≤ t)

/-- Embeds `data[data.index == current_date]`. -/
def rowsAt (data : List Row) (t : Int) : List Row :=
  data.filter (fun r => r.timestamp = t)

/-- The `current_prices` dict built from the rows at `t` (per python dict
assignment, the last row of a symbol wins, hence the reverse). -/
def pricesAt (data : List Row) (t : Int) : List (Symbol × ℚ) :=
  ((rowsAt data t).reverse).map (fun r => (r.symbol, r.close))

/-- One iteration of the replay loop of `run_backtest`: generate signals on
the point-in-time slice, execute the signals dated `t` with slippage and
commission, then record a snapshot — except that an exception from
`generate_signals` is caught and the iteration `continue`s, skipping both
execution and the snapshot. -/
def stepDate (eng : BacktestEngine) (strat : StrategySpec) (data : List Row)
    (s : StrategyState) (t : Int) : StrategyState :=
  match strat.generate_signals s (histAt data t) with
  | .error _ => s
  | .ok signals =>
      let s1 := signals.foldl (fun st sig =>
        if sig.timestamp = t then
          executeSignal strat st
            { sig with price := applySlippage eng sig.price sig.signal_type }
            eng.commission
        else st) s
      recordPortfolioState s1 t (pricesAt data t)

/-- The fatal error of `run_backtest`
(`ValueError("No data available for the specified date range")`; the spec
calls it `InvalidRangeError`). -/
inductive BacktestError where
  | noData
deriving DecidableEq, Repr

/-- Embeds `BacktestEngine.run_backtest` up to the metric computation: date
filtering, the empty-data check, strategy initialisation and the replay
loop.  Returns the final strategy state (trade log and snapshot history
included), or the fatal error. -/
def runBacktest (eng : BacktestEngine) (strat : StrategySpec) (s0 : StrategyState)
    (data : List Row) (start_date end_date : Option Int) :
    Except BacktestError StrategyState :=
  let data1 := if start_date.isSome || end_date.isSome then
      filterByDate data start_date end_date
    else data
  if data1.isEmpty then .error .noData
  else .ok ((datesOf data1).foldl (stepDate eng strat data1)
    (initState s0 eng.initial_capital))

/-! ### FIFO round-trip P&L (`metrics.py`, `_calculate_round_trip_pnl`;
the same algorithm appears in `engine.py`, `_calculate_trade_statistics`) -/

/-- One open buy lot in the `positions[symbol]` list of
`_calculate_round_trip_pnl`. -/
structure Lot where
  quantity : Int
  price : ℚ
  timestamp : Int
deriving DecidableEq, Repr

/-- One matched round-trip entry appended to `pnl_trades`. -/
structure PnlEntry where
  symbol : Symbol
  pnl : ℚ
  return_pct : ℚ
  holding_period : Int
  entry_price : ℚ
  exit_price : ℚ
  quantity : Int
deriving DecidableEq, Repr

/-- First-match lookup in a generic `Symbol`-keyed association list. -/
def alookup {β : Type} : List (Symbol × β) → Symbol → Option β
  | [], _ => none
  | (k, v) :: rest, sym => if k = sym then some v else alookup rest sym

/-- Python dict assignment `d[k] = v`: rewrite the key in place when
present, append it otherwise. -/
def aset {β : Type} (l : List (Symbol × β)) (k : Symbol) (v : β) :
    List (Symbol × β) :=
  match alookup l k with
  | some _ => l.map (fun e => if e.1 = k then (k, v) else e)
  | none => l ++ [(k, v)]

/-- The `while remaining_quantity > 0 and positions[symbol]:` loop of
`_calculate_round_trip_pnl`, for one SELL trade: consume the oldest lots
first, splitting the head lot when the sell is smaller than it.  Returns
the matched entries (in consumption order) and the lots left open. -/
def matchSell (sym : Symbol) (sell_price : ℚ) (sell_ts : Int) :
    Int → List Lot → List PnlEntry × List Lot
  | _, [] => ([], [])
  | remaining, lot :: rest =>
    if remaining ≤ 0 then ([], lot :: rest)
    else if lot.quantity ≤ remaining then
      let e : PnlEntry :=
        { symbol := sym
          pnl := (sell_price - lot.price) * (lot.quantity : ℚ)
          return_pct := (sell_price - lot.price) / lot.price
          holding_period := sell_ts - lot.timestamp
          entry_price := lot.price
          exit_price := sell_price
          quantity := lot.quantity }
      let r := matchSell sym sell_price sell_ts (remaining - lot.quantity) rest
      (e :: r.1, r.2)
    else
      ([{ symbol := sym
          pnl := (sell_price - lot.price) * (remaining : ℚ)
          return_pct := (sell_price - lot.price) / lot.price
          holding_period := sell_ts - lot.timestamp
          entry_price := lot.price
          exit_price := sell_price
          quantity := remaining }],
       { lot with quantity := lot.quantity - remaining } :: rest)

/-- One iteration of the trade loop of `_calculate_round_trip_pnl`: a BUY
appends a lot to `positions[symbol]` (creating the key when absent); a SELL
whose symbol has a key runs the FIFO matcher; a SELL with no key is
skipped. -/
def fifoStep (acc : List PnlEntry × List (Symbol × List Lot)) (trade : Trade) :
    List PnlEntry × List (Symbol × List Lot) :=
  match trade.action with
  | .BUY =>
      let lots := (alookup acc.2 trade.symbol).getD []
      (acc.1, aset acc.2 trade.symbol
        (lots ++ [{ quantity := trade.quantity, price := trade.price
                    timestamp := trade.timestamp }]))
  | .SELL =>
      match alookup acc.2 trade.symbol with
      | none => acc
      | some lots =>
          let r := matchSell trade.symbol trade.price trade.timestamp
            trade.quantity lots
          (acc.1 ++ r.1, aset acc.2 trade.symbol r.2)

/-- Embeds `_calculate_round_trip_pnl`: the python function returns the first
component (`pnl_trades`); the second component is its internal
`positions` dict of still-open lots, kept here so the open lots are
observable. -/
def roundTripPnl (trades : List Trade) :
    List PnlEntry × List (Symbol × List Lot) :=
  trades.foldl fifoStep ([], [])

/-! ### Sharpe ratio (`engine.py`, `_calculate_sharpe_ratio`;
`metrics.py` computes the same formula) -/

/-- Embeds `Series.mean()`. -/
def listMean (l : List ℚ) : ℚ := l.sum / (l.length : ℚ)

/-- Embeds `Series.std()` squared: the pandas sample variance (ddof = 1). -/
def sampleVar (l : List ℚ) : ℚ :=
  ((l.map (fun x => (x - listMean l) ^ 2)).sum) / ((l.length : ℚ) - 1)

/-- Embeds `Series.std()` as a real number. -/
noncomputable def listStd (l : List ℚ) : ℝ :=
  Real.sqrt ((sampleVar l : ℚ) : ℝ)

open Classical in
/-- Embeds `BacktestEngine._calculate_sharpe_ratio`: `0.0` when `returns.std()` is
zero, otherwise `(excess_returns.mean() / returns.std()) * sqrt(252)` with
`excess_returns = returns - risk_free_rate / 252`. -/
noncomputable def calculateSharpe (risk_free_rate : ℚ) (returns : List ℚ) : ℝ :=
  if listStd returns = 0 then 0
  else (((listMean (returns.map (fun x => x - risk_free_rate / 252)) : ℚ) : ℝ)
    / listStd returns) * Real.sqrt 252

/-! ### Buy-condition confidence
(`fibonacci_macd_strategy.py`, `_check_buy_conditions` and its caller
`_generate_signals_single_asset`) -/

/-- The five boolean conditions evaluated by `_check_buy_conditions`. -/
structure BuyConditions where
  fibonacci_support : Bool
  macd_bullish : Bool
  rsi_favorable : Bool
  volume_confirmation : Bool
  trend_favorable : Bool
deriving DecidableEq, Repr

/-- The confidence returned by `_check_buy_conditions`: the plain sum of the
weights of the conditions that hold (0.25, 0.30, 0.25, 0.20, 0.10); no
clamping is applied. -/
def buyConfidence (c : BuyConditions) : ℚ :=
  (if c.fibonacci_support then (25 : ℚ) / 100 else 0)
    + (if c.macd_bullish then (30 : ℚ) / 100 else 0)
    + (if c.rsi_favorable then (25 : ℚ) / 100 else 0)
    + (if c.volume_confirmation then (20 : ℚ) / 100 else 0)
    + (if c.trend_favorable then (10 : ℚ) / 100 else 0)

/-- Embeds `buy_signal = sum(conditions.values()) >= 3`. -/
def buySignalFires (c : BuyConditions) : Bool :=
  3 ≤ (if c.fibonacci_support then (1 : Nat) else 0)
    + (if c.macd_bullish then 1 else 0)
    + (if c.rsi_favorable then 1 else 0)
    + (if c.volume_confirmation then 1 else 0)
    + (if c.trend_favorable then 1 else 0)

/-- The default `min_confidence` parameter (0.6). -/
def minConfidence : ℚ := 6 / 10

/-- The buy-signal emission step of `_generate_signals_single_asset`: a
`Signal` is appended exactly when `buy_signal and confidence >=
self.min_confidence`, carrying the raw confidence. -/
def emitBuySignal (t : Int) (sym : Symbol) (close : ℚ) (c : BuyConditions) :
    Option Signal :=
  if buySignalFires c ∧ minConfidence ≤ buyConfidence c then
    some { timestamp := t, symbol := sym, signal_type := .BUY
           price := close, confidence := buyConfidence c }
  else none

/-! ### Auxiliary lemmas about the association-list operations -/

theorem lookupPos_mem {ps : List (Symbol × Position)} {sym : Symbol} {p : Position}
    (h : lookupPos ps sym = some p) : (sym, p) ∈ ps := by
  induction ps with
  | nil => simp [lookupPos] at h
  | cons e rest ih =>
    rcases e with ⟨k, q⟩
    by_cases hk : k = sym
    · subst hk
      simp [lookupPos] at h
      subst h
      exact List.mem_cons_self _ _
    · simp [lookupPos, hk] at h
      exact List.mem_cons_of_mem _ (ih h)

theorem lookupPos_eq_none_iff {ps : List (Symbol × Position)} {sym : Symbol} :
    lookupPos ps sym = none ↔ sym ∉ ps.map Prod.fst := by
  induction ps with
  | nil => simp [lookupPos]
  | cons e rest ih =>
    rcases e with ⟨k, q⟩
    by_cases hk : k = sym
    · subst hk
      simp [lookupPos]
    · simp [lookupPos, hk, ih, Ne.symm hk]

theorem mapFst_replacePos (ps : List (Symbol × Position)) (sym : Symbol) (p : Position) :
    (replacePos ps sym p).map Prod.fst = ps.map Prod.fst := by
  unfold replacePos
  rw [List.map_map]
  apply List.map_congr_left
  intro a _
  by_cases h1 : a.1 = sym <;> simp [h1]

theorem mem_replacePos {ps : List (Symbol × Position)} {sym : Symbol} {p : Position}
    {e : Symbol × Position} (h : e ∈ replacePos ps sym p) : e ∈ ps ∨ e = (sym, p) := by
  unfold replacePos at h
  rcases List.mem_map.mp h with ⟨a, ha, hfa⟩
  by_cases h1 : a.1 = sym
  · right
    rw [← hfa, if_pos h1]
  · left
    rwa [← hfa, if_neg h1]

theorem mem_removePos {ps : List (Symbol × Position)} {sym : Symbol}
    {e : Symbol × Position} (h : e ∈ removePos ps sym) : e ∈ ps :=
  (List.mem_filter.mp h).1

theorem nodupFst_removePos {ps : List (Symbol × Position)} {sym : Symbol}
    (h : (ps.map Prod.fst).Nodup) : ((removePos ps sym).map Prod.fst).Nodup :=
  List.Nodup.sublist ((List.filter_sublist ps).map Prod.fst) h

theorem lookupPos_replacePos_of_isSome {ps : List (Symbol × Position)} {sym : Symbol}
    (p : Position) (h : (lookupPos ps sym).isSome) :
    lookupPos (replacePos ps sym p) sym = some p := by
  induction ps with
  | nil => simp [lookupPos] at h
  | cons e rest ih =>
    rcases e with ⟨k, q⟩
    by_cases hk : k = sym
    · have h1 : replacePos ((k, q) :: rest) sym p
          = (sym, p) :: replacePos rest sym p := by
        simp [replacePos, hk]
      rw [h1]
      simp [lookupPos]
    · have h1 : replacePos ((k, q) :: rest) sym p
          = (k, q) :: replacePos rest sym p := by
        simp [replacePos, hk]
      rw [h1]
      simp only [lookupPos, if_neg hk]
      simp only [lookupPos, if_neg hk] at h
      exact ih h

theorem lookupPos_removePos (ps : List (Symbol × Position)) (sym : Symbol) :
    lookupPos (removePos ps sym) sym = none := by
  induction ps with
  | nil => rfl
  | cons e rest ih =>
    rcases e with ⟨k, q⟩
    by_cases hk : k = sym
    · have h1 : removePos ((k, q) :: rest) sym = removePos rest sym := by
        simp [removePos, hk]
      rw [h1]
      exact ih
    · have h1 : removePos ((k, q) :: rest) sym = (k, q) :: removePos rest sym := by
        simp [removePos, hk]
      rw [h1]
      simp only [lookupPos, if_neg hk]
      exact ih

/-! ### Execution steps never touch the snapshot history -/

theorem executeBuy_history (strat : StrategySpec) (s : StrategyState) (sig : Signal)
    (commission : ℚ) :
    (executeBuy strat s sig commission).portfolio_history = s.portfolio_history := by
  simp only [executeBuy]
  split
  · split <;> rfl
  · rfl

theorem executeSell_history (strat : StrategySpec) (s : StrategyState) (sig : Signal)
    (commission : ℚ) :
    (executeSell strat s sig commission).portfolio_history = s.portfolio_history := by
  simp only [executeSell]
  split
  · rfl
  · split <;> rfl

theorem executeSignal_history (strat : StrategySpec) (s : StrategyState) (sig : Signal)
    (commission : ℚ) :
    (executeSignal strat s sig commission).portfolio_history = s.portfolio_history := by
  simp only [executeSignal]
  split
  · exact executeBuy_history strat s sig commission
  · exact executeSell_history strat s sig commission
  · rfl

theorem stepFold_history (eng : BacktestEngine) (strat : StrategySpec) (t : Int) :
    ∀ (sigs : List Signal) (s : StrategyState),
      (sigs.foldl (fun st sig =>
        if sig.timestamp = t then
          executeSignal strat st
            { sig with price := applySlippage eng sig.price sig.signal_type }
            eng.commission
        else st) s).portfolio_history = s.portfolio_history := by
  intro sigs
  induction sigs with
  | nil => intro s; rfl
  | cons sig rest ih =>
    intro s
    simp only [List.foldl_cons]
    rw [ih]
    by_cases h : sig.timestamp = t
    · simp [h, executeSignal_history]
    · simp [h]

theorem recordPortfolioState_appends (s : StrategyState) (t : Int)
    (prices : List (Symbol × ℚ)) :
    ∃ snap, (recordPortfolioState s t prices).portfolio_history
      = s.portfolio_history ++ [snap] :=
  ⟨_, rfl⟩

/-! ### The ledger/position invariant and its preservation -/

/-- The state invariant of the open-position dictionary: at most one entry
per symbol, and every open position has strictly positive quantity (so a
position whose quantity reached zero is absent). -/
def StateInv (s : StrategyState) : Prop :=
  (s.positions.map Prod.fst).Nodup ∧ ∀ e ∈ s.positions, 0 < e.2.quantity

theorem stateInv_executeBuy (strat : StrategySpec) (s : StrategyState) (sig : Signal)
    (commission : ℚ) (h : StateInv s) :
    StateInv (executeBuy strat s sig commission) := by
  obtain ⟨hnd, hq⟩ := h
  by_cases h1 : 0 < strat.calculate_position_size s sig s.cash
  · by_cases h2 : (strat.calculate_position_size s sig s.cash : ℚ) * sig.price
        + commission ≤ s.cash
    · cases hl : lookupPos s.positions sig.symbol with
      | none =>
          have hs : sig.symbol ∉ s.positions.map Prod.fst := lookupPos_eq_none_iff.mp hl
          simp only [executeBuy, if_pos h1, if_pos h2, hl]
          constructor
          · simp only [List.map_append, List.map_cons, List.map_nil]
            rw [List.nodup_append]
            exact ⟨hnd, List.nodup_singleton _, by simpa [List.disjoint_right] using hs⟩
          · intro e he
            rcases List.mem_append.mp he with he1 | he2
            · exact hq e he1
            · simp only [List.mem_singleton] at he2
              subst he2
              exact h1
      | some ex =>
          have hex : 0 < ex.quantity := hq _ (lookupPos_mem hl)
          simp only [executeBuy, if_pos h1, if_pos h2, hl]
          constructor
          · rw [mapFst_replacePos]
            exact hnd
          · intro e he
            rcases mem_replacePos he with he1 | he2
            · exact hq e he1
            · subst he2
              exact add_pos hex h1
    · simp only [executeBuy, if_pos h1, if_neg h2]
      exact ⟨hnd, hq⟩
  · simp only [executeBuy, if_neg h1]
    exact ⟨hnd, hq⟩

theorem stateInv_executeSell (strat : StrategySpec) (s : StrategyState) (sig : Signal)
    (commission : ℚ) (h : StateInv s) :
    StateInv (executeSell strat s sig commission) := by
  obtain ⟨hnd, hq⟩ := h
  cases hl : lookupPos s.positions sig.symbol with
  | none =>
      simp only [executeSell, hl]
      exact ⟨hnd, hq⟩
  | some ex =>
      by_cases h1 : 0 < min |strat.calculate_position_size s sig s.cash| ex.quantity
      · by_cases h2 : ex.quantity
            - min |strat.calculate_position_size s sig s.cash| ex.quantity ≤ 0
        · simp only [executeSell, hl, if_pos h1, if_pos h2]
          exact ⟨nodupFst_removePos hnd, fun e he => hq e (mem_removePos he)⟩
        · simp only [executeSell, hl, if_pos h1, if_neg h2]
          constructor
          · rw [mapFst_replacePos]
            exact hnd
          · intro e he
            rcases mem_replacePos he with he1 | he2
            · exact hq e he1
            · subst he2
              exact lt_of_not_le h2
      · simp only [executeSell, hl, if_neg h1]
        exact ⟨hnd, hq⟩

theorem stateInv_executeSignal (strat : StrategySpec) (s : StrategyState) (sig : Signal)
    (commission : ℚ) (h : StateInv s) :
    StateInv (executeSignal strat s sig commission) := by
  simp only [executeSignal]
  split
  · exact stateInv_executeBuy strat s sig commission h
  · exact stateInv_executeSell strat s sig commission h
  · exact h

theorem stateInv_execSignals (strat : StrategySpec) (commission : ℚ) :
    ∀ (sigs : List Signal) (s : StrategyState), StateInv s →
      StateInv (execSignals strat commission s sigs) := by
  intro sigs
  induction sigs with
  | nil => intro s h; exact h
  | cons a rest ih =>
    intro s h
    have h1 : execSignals strat commission s (a :: rest)
        = execSignals strat commission (executeSignal strat s a commission) rest := rfl
    rw [h1]
    exact ih _ (stateInv_executeSignal strat s a commission h)

/-! ### Auxiliary lemmas about the FIFO matcher -/

theorem matchSell_oldest_first (sym : Symbol) (p : ℚ) (ts : Int) :
    ∀ (lots : List Lot) (r : Int), ∃ rest,
      ((matchSell sym p ts r lots).1.map (fun e => e.entry_price)) ++ rest
        = lots.map (fun l => l.price) := by
  intro lots
  induction lots with
  | nil => intro r; exact ⟨[], rfl⟩
  | cons lot rest ih =>
    intro r
    by_cases h1 : r ≤ 0
    · exact ⟨(lot :: rest).map (fun l => l.price), by simp [matchSell, h1]⟩
    · by_cases h2 : lot.quantity ≤ r
      · obtain ⟨tail, htail⟩ := ih (r - lot.quantity)
        exact ⟨tail, by simp [matchSell, h1, h2, htail]⟩
      · exact ⟨rest.map (fun l => l.price), by simp [matchSell, h1, h2]⟩

theorem matchSell_pnl_formula (sym : Symbol) (p : ℚ) (ts : Int) :
    ∀ (lots : List Lot) (r : Int) (e : PnlEntry), e ∈ (matchSell sym p ts r lots).1 →
      e.pnl = (p - e.entry_price) * (e.quantity : ℚ) := by
  intro lots
  induction lots with
  | nil => intro r e he; simp [matchSell] at he
  | cons lot rest ih =>
    intro r e he
    by_cases h1 : r ≤ 0
    · simp [matchSell, h1] at he
    · by_cases h2 : lot.quantity ≤ r
      · simp only [matchSell, if_neg h1, if_pos h2, List.mem_cons] at he
        rcases he with he | he
        · subst he; rfl
        · exact ih _ e he
      · simp only [matchSell, if_neg h1, if_neg h2, List.mem_cons,
          List.not_mem_nil, or_false] at he
        subst he; rfl

theorem matchSell_conservation (sym : Symbol) (p : ℚ) (ts : Int) :
    ∀ (lots : List Lot) (r : Int),
      ((matchSell sym p ts r lots).1.map (fun e => e.quantity)).sum
        + ((matchSell sym p ts r lots).2.map (fun l => l.quantity)).sum
        = (lots.map (fun l => l.quantity)).sum := by
  intro lots
  induction lots with
  | nil => intro r; simp [matchSell]
  | cons lot rest ih =>
    intro r
    by_cases h1 : r ≤ 0
    · simp [matchSell, h1]
    · by_cases h2 : lot.quantity ≤ r
      · have h3 := ih (r - lot.quantity)
        simp only [matchSell, if_neg h1, if_pos h2, List.map_cons, List.sum_cons]
        omega
      · simp only [matchSell, if_neg h1, if_neg h2, List.map_cons, List.sum_cons,
          List.map_nil, List.sum_nil]
        omega

/-! ### Auxiliary lemmas about the variance of a return series -/

theorem sampleVar_nonneg {l : List ℚ} (h : 2 ≤ l.length) : 0 ≤ sampleVar l := by
  unfold sampleVar
  apply div_nonneg
  · apply List.sum_nonneg
    intro x hx
    rcases List.mem_map.mp hx with ⟨y, _, rfl⟩
    positivity
  · have h2 : (2 : ℚ) ≤ (l.length : ℚ) := by exact_mod_cast h
    linarith

theorem sampleVar_eq_zero_of_const {l : List ℚ} {c : ℚ} (h : ∀ x ∈ l, x = c) :
    sampleVar l = 0 := by
  cases l with
  | nil => simp [sampleVar]
  | cons a rest =>
    have hne : ((a :: rest).length : ℚ) ≠ 0 := by
      have h0 : (0 : ℚ) < ((a :: rest).length : ℚ) := by
        exact_mod_cast Nat.succ_pos rest.length
      exact ne_of_gt h0
    have hmean : listMean (a :: rest) = c := by
      unfold listMean
      rw [List.sum_eq_card_nsmul _ c h, nsmul_eq_mul, mul_div_cancel_left₀ c hne]
    have h0 : ((a :: rest).map (fun x => (x - listMean (a :: rest)) ^ 2)).sum = 0 := by
      apply List.sum_eq_zero
      intro y hy
      rcases List.mem_map.mp hy with ⟨x, hx, rfl⟩
      rw [hmean, h x hx]
      ring
    unfold sampleVar
    rw [h0, zero_div]

/-! ### Concrete fixtures used by witnesses and counterexamples -/

/-- A two-day, one-symbol data set. -/
def exRows : List Row :=
  [{ timestamp := 1, symbol := "X", close := 100 },
   { timestamp := 2, symbol := "X", close := 105 }]

/-- Embeds `BacktestEngine()` with no arguments: all config defaults. -/
def defaultEngine : BacktestEngine := mkBacktestEngine none none none

/-- A strategy whose `generate_signals` raises as soon as the point-in-time
slice has at least two rows (so it succeeds on day 1 and raises on day 2 of
`exRows`). -/
def failingStrategy : StrategySpec :=
  { generate_signals := fun _ hist =>
      if 2 ≤ hist.length then .error "boom" else .ok []
    calculate_position_size := fun _ _ _ => 0 }

/-- The buy signal emitted when all five conditions hold on a 100-close bar:
its confidence is 0.25+0.30+0.25+0.20+0.10 = 1.1. -/
def spySignal : Signal :=
  { timestamp := 0, symbol := "X", signal_type := .BUY, price := 100
    confidence := 11 / 10 }

/-- A strategy that emits `spySignal` and whose position sizing returns 7
exactly when the confidence it is handed exceeds 1 (and 1 otherwise), so the
recorded trade quantity shows which confidence reached
`calculate_position_size`. -/
def spyStrategy : StrategySpec :=
  { generate_signals := fun _ _ => .ok [spySignal]
    calculate_position_size := fun _ sig _ => if 1 < sig.confidence then 7 else 1 }

/-- A one-day data set matching `spySignal`. -/
def spyRows : List Row := [{ timestamp := 0, symbol := "X", close := 100 }]

/-- The scripted trade log of the FIFO test: Buy 10@100, Buy 10@110,
Sell 15@120. -/
def exampleTrades : List Trade :=
  [{ timestamp := 1, symbol := "X", action := .BUY, quantity := 10, price := 100
     commission := 0, amount := 1000 },
   { timestamp := 2, symbol := "X", action := .BUY, quantity := 10, price := 110
     commission := 0, amount := 1100 },
   { timestamp := 3, symbol := "X", action := .SELL, quantity := 15, price := 120
     commission := 0, amount := 1800 }]

/-- All five buy conditions hold. -/
def allConditions : BuyConditions :=
  { fibonacci_support := true, macd_bullish := true, rsi_favorable := true
    volume_confirmation := true, trend_favorable := true }

/-- A strategy with a constant position size of 3 shares. -/
def unitStrategy : StrategySpec :=
  { generate_signals := fun _ _ => .ok []
    calculate_position_size := fun _ _ _ => 3 }

/-- A sample open position of 5 shares of "X" at entry 10. -/
def samplePosition : Position :=
  { symbol := "X", quantity := 5, entry_price := 10, entry_date := 0
    current_price := 10, unrealized_pnl := 0 }

/-- A sample strategy state holding `samplePosition` and 1000 in cash. -/
def sampleState : StrategyState :=
  { cash := 1000, positions := [("X", samplePosition)], signals := []
    trades := [], portfolio_history := [], portfolio_value := 1000
    current_date := none }

/-- A buy signal for 20 a share of "X". -/
def sampleBuySignal : Signal :=
  { timestamp := 1, symbol := "X", signal_type := .BUY, price := 20, confidence := 1 }

/-- A sell signal for 20 a share of "X". -/
def sampleSellSignal : Signal :=
  { timestamp := 1, symbol := "X", signal_type := .SELL, price := 20, confidence := 1 }

/-- The open-lot queue Buy 10@100 (day 1), Buy 10@110 (day 2). -/
def exampleLots : List Lot :=
  [{ quantity := 10, price := 100, timestamp := 1 },
   { quantity := 10, price := 110, timestamp := 2 }]

/-- The first matched entry produced for Sell 15@120 against `exampleLots`. -/
def exampleMatchedEntry : PnlEntry :=
  { symbol := "X", pnl := 200, return_pct := 1 / 5, holding_period := 2
    entry_price := 100, exit_price := 120, quantity := 10 }

/-! ### Claim theorems -/

/-- Claim C1: the replay loop of `run_backtest` iterates the unique
timestamps of the data in ascending order, and for each iterated timestamp
`t` the point-in-time slice handed to `strategy.generate_signals` (which is
`histAt data t` by definition of `stepDate`) contains exactly the rows with
timestamp ≤ t: every row of the slice is ≤ t, and the maximum timestamp of
the slice equals `t`, so no row with timestamp > t is ever visible. -/
theorem run_no_lookahead (data : List Row) (t : Int) (ht : t ∈ datesOf data) :
    List.Sorted (· ≤ ·) (datesOf data) ∧ (datesOf data).Nodup ∧
    (∀ r ∈ histAt data t, r.timestamp ≤ t) ∧
    ((histAt data t).map (fun r => r.timestamp)).maximum = (t : WithBot ℤ) := by
  have hsorted : List.Sorted (· ≤ ·) (datesOf data) :=
    List.sorted_insertionSort _ _
  have hnd : (datesOf data).Nodup := by
    unfold datesOf
    exact ((List.perm_insertionSort (· ≤ ·)
      ((data.map (fun r => r.timestamp)).dedup)).nodup_iff).mpr
      (List.nodup_dedup _)
  have hmem : t ∈ data.map (fun r => r.timestamp) := by
    unfold datesOf at ht
    have h1 : t ∈ (data.map (fun r => r.timestamp)).dedup :=
      (List.perm_insertionSort (· ≤ ·)
        ((data.map (fun r => r.timestamp)).dedup)).mem_iff.mp ht
    exact List.mem_dedup.mp h1
  obtain ⟨r0, hr0, hr0t⟩ := List.mem_map.mp hmem
  have hbound : ∀ r ∈ histAt data t, r.timestamp ≤ t := by
    intro r hr
    have h2 := (List.mem_filter.mp hr).2
    simpa using h2
  refine ⟨hsorted, hnd, hbound, ?_⟩
  rw [List.maximum_eq_coe_iff]
  constructor
  · apply List.mem_map.mpr
    refine ⟨r0, ?_, hr0t⟩
    apply List.mem_filter.mpr
    exact ⟨hr0, by simp [hr0t]⟩
  · intro b hb
    rcases List.mem_map.mp hb with ⟨r, hr, rfl⟩
    exact hbound r hr

/-- Witness for C1 at the concrete two-day data set. -/
theorem run_no_lookahead_witness :
    List.Sorted (· ≤ ·) (datesOf exRows) ∧ (datesOf exRows).Nodup ∧
    (∀ r ∈ histAt exRows 2, r.timestamp ≤ 2) ∧
    ((histAt exRows 2).map (fun r => r.timestamp)).maximum = (2 : WithBot ℤ) :=
  run_no_lookahead exRows 2 (by decide)

/-- Claim C5 counterexample: the claim says every iterated timestamp gets a
snapshot, including those where `generate_signals` raises.  On `exRows` the
replay iterates two timestamps, `failingStrategy` raises on the second, and
the recorded history has only one snapshot: the `continue` in the exception
handler of `run_backtest` skips `record_portfolio_state`. -/
theorem snapshot_skipped_on_error_counterexample :
    (datesOf exRows).length = 2 ∧
    ((runBacktest defaultEngine failingStrategy freshState exRows none none).toOption.map
      (fun st => st.portfolio_history.length)) = some 1 := by
  constructor
  · decide
  · norm_num [runBacktest, datesOf, List.insertionSort, List.orderedInsert, filterByDate,
      stepDate, histAt, rowsAt, pricesAt, failingStrategy, exRows, freshState, initState,
      defaultEngine, mkBacktestEngine, orDefault, configInitialCapital, configCommission,
      configSlippage, recordPortfolioState, updatePositions, positionsValue,
      Except.toOption, List.filter]

/-- Claim C5 as amended: for every iterated timestamp, if `generate_signals`
raises then the step changes nothing (no trades, no snapshot for that
timestamp) and the replay continues from the unchanged state; if it
succeeds, exactly one snapshot is appended (append-only). -/
theorem step_snapshot_semantics (eng : BacktestEngine) (strat : StrategySpec)
    (data : List Row) (t : Int) (s : StrategyState) :
    (∀ er, strat.generate_signals s (histAt data t) = .error er →
        stepDate eng strat data s t = s) ∧
    (∀ sigs, strat.generate_signals s (histAt data t) = .ok sigs →
        ∃ snap, (stepDate eng strat data s t).portfolio_history
            = s.portfolio_history ++ [snap]) := by
  constructor
  · intro er h
    simp [stepDate, h]
  · intro sigs h
    obtain ⟨snap, hsnap⟩ := recordPortfolioState_appends
      (sigs.foldl (fun st sig =>
        if sig.timestamp = t then
          executeSignal strat st
            { sig with price := applySlippage eng sig.price sig.signal_type }
            eng.commission
        else st) s) t (pricesAt data t)
    refine ⟨snap, ?_⟩
    simp only [stepDate, h]
    rw [hsnap, stepFold_history]

/-- Witness for the amended C5 at the concrete strategies. -/
theorem step_snapshot_semantics_witness :
    stepDate defaultEngine failingStrategy exRows freshState 2 = freshState ∧
    (stepDate defaultEngine spyStrategy spyRows freshState 0).portfolio_history.length = 1 := by
  constructor
  · exact (step_snapshot_semantics defaultEngine failingStrategy exRows 2 freshState).1
      "boom" (by norm_num [failingStrategy, histAt, exRows, List.filter])
  · obtain ⟨snap, hsnap⟩ :=
      (step_snapshot_semantics defaultEngine spyStrategy spyRows 0 freshState).2
        [spySignal] (by norm_num [spyStrategy])
    rw [hsnap]
    rfl

/-- Claim C6 counterexample: with all five conditions true the emitted buy
signal carries confidence 1.1, which is outside [0, 1]; no clamp is applied
anywhere, and the engine hands that confidence unchanged to
`calculate_position_size` — `spyStrategy` sizes 7 shares exactly when the
confidence it receives exceeds 1, and the recorded trade quantity is 7. -/
theorem confidence_unclamped_counterexample :
    (emitBuySignal 0 "X" 100 allConditions).map (fun s => s.confidence)
        = some (11 / 10) ∧
    ¬ ((11 : ℚ) / 10 ≤ 1) ∧
    ((runBacktest defaultEngine spyStrategy freshState spyRows none none).toOption.map
      (fun st => st.trades.map (fun tr => tr.quantity))) = some [7] := by
  refine ⟨?_, by norm_num, ?_⟩
  · norm_num [emitBuySignal, buySignalFires, buyConfidence, minConfidence, allConditions]
  · norm_num [runBacktest, datesOf, List.insertionSort, List.orderedInsert, filterByDate,
      stepDate, histAt, rowsAt, pricesAt, spyStrategy, spyRows, spySignal, freshState,
      initState, defaultEngine, mkBacktestEngine, orDefault, configInitialCapital,
      configCommission, configSlippage, applySlippage, executeSignal, executeBuy,
      lookupPos, replacePos, recordPortfolioState, updatePositions, positionsValue,
      List.filter, Except.toOption]

/-- Claim C6 as amended: every emitted buy signal carries confidence equal to
the raw sum of the weights of the satisfied conditions, which lies in
[0.6, 1.1]: at least `min_confidence` (0.6) by the emission gate and at most
1.1 (the sum of all five weights); it is not clamped to [0, 1] and exceeds 1
when all five conditions hold. -/
theorem emitted_confidence_bounds (t : Int) (sym : Symbol) (close : ℚ)
    (c : BuyConditions) (s : Signal) (h : emitBuySignal t sym close c = some s) :
    s.confidence = buyConfidence c ∧ minConfidence ≤ s.confidence
      ∧ s.confidence ≤ 11 / 10 := by
  by_cases hcond : buySignalFires c = true ∧ minConfidence ≤ buyConfidence c
  · rw [emitBuySignal, if_pos hcond] at h
    injection h with h1
    rw [← h1]
    refine ⟨rfl, hcond.2, ?_⟩
    obtain ⟨a, b, c1, d, e⟩ := c
    cases a <;> cases b <;> cases c1 <;> cases d <;> cases e <;>
      norm_num [buyConfidence]
  · rw [emitBuySignal, if_neg hcond] at h
    exact Option.noConfusion h

/-- Witness for the amended C6: the all-conditions signal. -/
theorem emitted_confidence_bounds_witness :
    spySignal.confidence = buyConfidence allConditions ∧
    minConfidence ≤ spySignal.confidence ∧ spySignal.confidence ≤ 11 / 10 :=
  emitted_confidence_bounds 0 "X" 100 allConditions spySignal
    (by norm_num [emitBuySignal, buySignalFires, buyConfidence, minConfidence,
      allConditions, spySignal])

/-- Claim C7: `run_backtest` fails with the no-data error exactly when the
date-filtered data set is empty — and then it fails for every strategy and
every incoming state, before any strategy initialisation or replay; with a
non-empty filtered data set it never returns that error. -/
theorem run_error_iff_empty_data (eng : BacktestEngine) (strat : StrategySpec)
    (s0 : StrategyState) (data : List Row) (sd ed : Option Int) :
    ((if sd.isSome || ed.isSome then filterByDate data sd ed else data) = [] →
        ∀ (strat2 : StrategySpec) (s1 : StrategyState),
          runBacktest eng strat2 s1 data sd ed = .error .noData) ∧
    ((if sd.isSome || ed.isSome then filterByDate data sd ed else data) ≠ [] →
        runBacktest eng strat s0 data sd ed ≠ .error .noData) := by
  constructor
  · intro h strat2 s1
    simp only [runBacktest]
    rw [h]
    simp
  · intro h
    simp only [runBacktest, List.isEmpty_eq_true]
    rw [if_neg h]
    exact fun hc => Except.noConfusion hc

/-- Witness for C7: the empty and a non-empty data set. -/
theorem run_error_iff_empty_data_witness :
    runBacktest defaultEngine failingStrategy freshState ([] : List Row) none none
        = .error .noData ∧
    runBacktest defaultEngine failingStrategy freshState exRows none none
        ≠ .error .noData := by
  constructor
  · exact (run_error_iff_empty_data defaultEngine failingStrategy freshState [] none
      none).1 (by decide) failingStrategy freshState
  · exact (run_error_iff_empty_data defaultEngine failingStrategy freshState exRows none
      none).2 (by decide)

/-- Claim C9: `reset()` clears every mutable strategy field, so two runs of
the same strategy on identical data with `reset()` called before each are
indistinguishable — the results (trade log and snapshot history included)
are equal whatever states the two instances were left in. -/
theorem reset_runs_identical (eng : BacktestEngine) (strat : StrategySpec)
    (data : List Row) (sd ed : Option Int) (s1 s2 : StrategyState) :
    resetState s1 = resetState s2 ∧
    runBacktest eng strat (resetState s1) data sd ed
      = runBacktest eng strat (resetState s2) data sd ed := by
  have h : resetState s1 = resetState s2 := rfl
  exact ⟨h, by rw [h]⟩

/-- Claim C10: constructing the engine with explicit zeros (falsy in python)
silently substitutes the config defaults, and no constructor arguments can
produce a zero commission, zero slippage or zero initial capital; passing
`0.0` is indistinguishable from omitting the argument. -/
theorem ctor_falsy_args_use_defaults :
    mkBacktestEngine (some 0) (some 0) (some 0)
        = { initial_capital := configInitialCapital, commission := configCommission
            slippage := configSlippage } ∧
    (∀ ic c sl, (mkBacktestEngine ic c sl).initial_capital ≠ 0
        ∧ (mkBacktestEngine ic c sl).commission ≠ 0
        ∧ (mkBacktestEngine ic c sl).slippage ≠ 0) ∧
    (∀ ic sl, mkBacktestEngine ic (some 0) sl = mkBacktestEngine ic none sl) ∧
    (∀ ic c, mkBacktestEngine ic c (some 0) = mkBacktestEngine ic c none) := by
  have hne : ∀ (x : Option ℚ) (d : ℚ), d ≠ 0 → orDefault x d ≠ 0 := by
    intro x d hd
    cases x with
    | none => exact hd
    | some v =>
        by_cases hv : v = 0
        · simp only [orDefault, if_pos hv]
          exact hd
        · simp only [orDefault, if_neg hv]
          exact hv
  refine ⟨by norm_num [mkBacktestEngine, orDefault], ?_, ?_, ?_⟩
  · intro ic c sl
    refine ⟨hne ic configInitialCapital (by norm_num [configInitialCapital]),
      hne c configCommission (by norm_num [configCommission]),
      hne sl configSlippage (by norm_num [configSlippage])⟩
  · intro ic sl
    simp [mkBacktestEngine, orDefault]
  · intro ic c
    simp [mkBacktestEngine, orDefault]

/-- Claim C2: a buy (with a positive requested quantity) executes if and
only if its full cost — quantity × price + commission — fits in the current
cash: when it fits, the cash drops by exactly the cost and exactly one BUY
trade is appended; when it does not fit, the state is returned unchanged
(silently skipped, no partial fill); and the cash stays non-negative after
the call whenever it was non-negative before. -/
theorem buy_executes_iff_funded (strat : StrategySpec) (s : StrategyState)
    (sig : Signal) (commission : ℚ)
    (hq : 0 < strat.calculate_position_size s sig s.cash) :
    ((strat.calculate_position_size s sig s.cash : ℚ) * sig.price + commission
        ≤ s.cash →
      (executeBuy strat s sig commission).cash
          = s.cash - ((strat.calculate_position_size s sig s.cash : ℚ) * sig.price
              + commission)
        ∧ (executeBuy strat s sig commission).trades
          = s.trades ++
            [{ timestamp := sig.timestamp, symbol := sig.symbol, action := .BUY
               quantity := strat.calculate_position_size s sig s.cash
               price := sig.price, commission := commission
               amount := (strat.calculate_position_size s sig s.cash : ℚ) * sig.price
                 + commission }]) ∧
    (¬ ((strat.calculate_position_size s sig s.cash : ℚ) * sig.price + commission
        ≤ s.cash) →
      executeBuy strat s sig commission = s) ∧
    (0 ≤ s.cash → 0 ≤ (executeBuy strat s sig commission).cash) := by
  refine ⟨?_, ?_, ?_⟩
  · intro hc
    cases hl : lookupPos s.positions sig.symbol <;>
      simp only [executeBuy, if_pos hq, if_pos hc, hl] <;> trivial
  · intro hc
    simp only [executeBuy, if_pos hq, if_neg hc]
  · intro h0
    by_cases hc : (strat.calculate_position_size s sig s.cash : ℚ) * sig.price
        + commission ≤ s.cash
    · cases hl : lookupPos s.positions sig.symbol <;>
        simp only [executeBuy, if_pos hq, if_pos hc, hl] <;> linarith
    · simp only [executeBuy, if_pos hq, if_neg hc]
      exact h0

/-- Witness for C2: a funded 3-share buy at 20 from 1000 in cash. -/
theorem buy_executes_iff_funded_witness :
    (executeBuy unitStrategy sampleState sampleBuySignal 0).cash = 940 ∧
    0 ≤ (executeBuy unitStrategy sampleState sampleBuySignal 0).cash := by
  have h := buy_executes_iff_funded unitStrategy sampleState sampleBuySignal 0
    (by norm_num [unitStrategy])
  constructor
  · have h2 := (h.1 (by norm_num [unitStrategy, sampleState, sampleBuySignal])).1
    rw [h2]
    norm_num [unitStrategy, sampleState, sampleBuySignal]
  · exact h.2.2 (by norm_num [sampleState])

/-- Claim C3: starting from a state whose open-position dictionary is
well-formed (at most one entry per symbol, all quantities > 0), any sequence
of executed signals preserves that invariant — so quantities stay ≥ 0 and a
zero-quantity position is never present; moreover a sell executes at most
the held quantity (the executed quantity is capped by `min`), the position
is removed exactly when the sold quantity exhausts the held quantity (and
otherwise survives with the reduced quantity), and a funded buy on a symbol
with an existing position accumulates into that single entry with the
volume-weighted average entry price. -/
theorem position_lifecycle (strat : StrategySpec) (commission : ℚ)
    (s : StrategyState) (hinv : StateInv s) :
    (∀ sigs, StateInv (execSignals strat commission s sigs)) ∧
    (∀ (sig : Signal) (p : Position), lookupPos s.positions sig.symbol = some p →
        min |strat.calculate_position_size s sig s.cash| p.quantity ≤ p.quantity) ∧
    (∀ (sig : Signal) (p : Position), sig.signal_type = .SELL →
        lookupPos s.positions sig.symbol = some p →
        0 < min |strat.calculate_position_size s sig s.cash| p.quantity →
        lookupPos (executeSignal strat s sig commission).positions sig.symbol
          = if p.quantity - min |strat.calculate_position_size s sig s.cash| p.quantity
              ≤ 0
            then none
            else some { p with quantity := (p.quantity
              - min (abs (strat.calculate_position_size s sig s.cash))
                p.quantity) }) ∧
    (∀ (sig : Signal) (p : Position), sig.signal_type = .BUY →
        lookupPos s.positions sig.symbol = some p →
        0 < strat.calculate_position_size s sig s.cash →
        (strat.calculate_position_size s sig s.cash : ℚ) * sig.price + commission
          ≤ s.cash →
        lookupPos (executeSignal strat s sig commission).positions sig.symbol
          = some { p with
              quantity := p.quantity + strat.calculate_position_size s sig s.cash
              entry_price := ((p.quantity : ℚ) * p.entry_price
                  + (strat.calculate_position_size s sig s.cash : ℚ) * sig.price)
                / ((p.quantity + strat.calculate_position_size s sig s.cash : ℤ)
                  : ℚ) }) := by
  refine ⟨fun sigs => stateInv_execSignals strat commission sigs s hinv, ?_, ?_, ?_⟩
  · intro sig p _
    exact min_le_right _ _
  · intro sig p hty hl h1
    simp only [executeSignal, hty]
    by_cases h2 : p.quantity
        - min |strat.calculate_position_size s sig s.cash| p.quantity ≤ 0
    · rw [if_pos h2]
      simp only [executeSell, hl, if_pos h1, if_pos h2]
      exact lookupPos_removePos _ _
    · rw [if_neg h2]
      simp only [executeSell, hl, if_pos h1, if_neg h2]
      exact lookupPos_replacePos_of_isSome _ (by rw [hl]; rfl)
  · intro sig p hty hl h1 h2
    simp only [executeSignal, hty]
    simp only [executeBuy, if_pos h1, if_pos h2, hl]
    exact lookupPos_replacePos_of_isSome _ (by rw [hl]; rfl)

/-- Witness for C3 at a concrete state and signal sequence. -/
theorem position_lifecycle_witness :
    StateInv (execSignals unitStrategy 0 sampleState
      [sampleBuySignal, sampleSellSignal]) ∧
    min |unitStrategy.calculate_position_size sampleState sampleSellSignal
        sampleState.cash| samplePosition.quantity ≤ samplePosition.quantity := by
  have h := position_lifecycle unitStrategy 0 sampleState
    (by constructor <;> simp [sampleState, samplePosition])
  exact ⟨h.1 _, h.2.1 sampleSellSignal samplePosition
    (by simp [lookupPos, sampleState, sampleSellSignal, samplePosition])⟩

/-- Claim C4: the round-trip P&L computation matches sells against the
oldest open buy lots first (the matched entry prices are an initial segment
of the lot queue), each matched pair contributes
(sell − buy price) × matched quantity, quantity is conserved between
matched entries and leftover lots; and on the scripted log Buy 10@100,
Buy 10@110, Sell 15@120 it produces the P&L entries [200, 50] (total 250)
and leaves a single open lot of 5 shares at entry 110. -/
theorem fifo_pnl_matching :
    ((roundTripPnl exampleTrades).1.map (fun e => e.pnl) = [200, 50]) ∧
    (((roundTripPnl exampleTrades).1.map (fun e => e.pnl)).sum = 250) ∧
    (alookup (roundTripPnl exampleTrades).2 "X"
        = some [{ quantity := 5, price := 110, timestamp := 2 }]) ∧
    (∀ (sym : Symbol) (p : ℚ) (ts r : Int) (lots : List Lot), ∃ rest,
        ((matchSell sym p ts r lots).1.map (fun e => e.entry_price)) ++ rest
          = lots.map (fun l => l.price)) ∧
    (∀ (sym : Symbol) (p : ℚ) (ts r : Int) (lots : List Lot) (e : PnlEntry),
        e ∈ (matchSell sym p ts r lots).1 →
          e.pnl = (p - e.entry_price) * (e.quantity : ℚ)) ∧
    (∀ (sym : Symbol) (p : ℚ) (ts r : Int) (lots : List Lot),
        ((matchSell sym p ts r lots).1.map (fun e => e.quantity)).sum
          + ((matchSell sym p ts r lots).2.map (fun l => l.quantity)).sum
          = (lots.map (fun l => l.quantity)).sum) := by
  refine ⟨?_, ?_, ?_,
    fun sym p ts r lots => matchSell_oldest_first sym p ts lots r,
    fun sym p ts r lots e he => matchSell_pnl_formula sym p ts lots r e he,
    fun sym p ts r lots => matchSell_conservation sym p ts lots r⟩ <;>
  norm_num [roundTripPnl, fifoStep, matchSell, aset, alookup, exampleTrades]

/-- Witness for C4: the first matched entry of Sell 15@120 against the lots
Buy 10@100, Buy 10@110 satisfies the per-pair P&L formula. -/
theorem fifo_pnl_matching_witness :
    exampleMatchedEntry.pnl
      = ((120 : ℚ) - exampleMatchedEntry.entry_price)
        * (exampleMatchedEntry.quantity : ℚ) :=
  fifo_pnl_matching.2.2.2.2.1 "X" 120 3 15 exampleLots exampleMatchedEntry
    (by norm_num [matchSell, exampleLots, exampleMatchedEntry])

/-- Claim C8: the Sharpe-ratio computation returns exactly 0 whenever the
standard deviation of the period returns is 0 — in particular when all
period returns are equal — and otherwise equals
(mean excess return over the daily risk-free rate / return std) × √252. -/
theorem sharpe_zero_when_std_zero (risk_free_rate : ℚ) (rs : List ℚ)
    (h2 : 2 ≤ rs.length) :
    (sampleVar rs = 0 → calculateSharpe risk_free_rate rs = 0) ∧
    (sampleVar rs ≠ 0 → calculateSharpe risk_free_rate rs
        = (((listMean (rs.map (fun x => x - risk_free_rate / 252)) : ℚ) : ℝ)
            / listStd rs) * Real.sqrt 252) ∧
    (∀ c : ℚ, (∀ x ∈ rs, x = c) → calculateSharpe risk_free_rate rs = 0) := by
  have hstd0 : sampleVar rs = 0 → listStd rs = 0 := by
    intro h
    unfold listStd
    rw [h]
    simp
  have hstdpos : sampleVar rs ≠ 0 → listStd rs ≠ 0 := by
    intro h
    have hge := sampleVar_nonneg h2
    have hgt : 0 < sampleVar rs := lt_of_le_of_ne hge (Ne.symm h)
    unfold listStd
    have hcast : (0 : ℝ) < ((sampleVar rs : ℚ) : ℝ) := by exact_mod_cast hgt
    exact ne_of_gt (Real.sqrt_pos.mpr hcast)
  refine ⟨?_, ?_, ?_⟩
  · intro h
    unfold calculateSharpe
    rw [if_pos (hstd0 h)]
  · intro h
    unfold calculateSharpe
    rw [if_neg (hstdpos h)]
  · intro c hc
    unfold calculateSharpe
    rw [if_pos (hstd0 (sampleVar_eq_zero_of_const hc))]

/-- Witness for C8: a constant return series has variance 0 and Sharpe 0
(risk-free rate 0.02 = 1/50, the config default). -/
theorem sharpe_zero_when_std_zero_witness :
    calculateSharpe (1 / 50) [(1 : ℚ) / 2, 1 / 2] = 0 :=
  (sharpe_zero_when_std_zero (1 / 50) [(1 : ℚ) / 2, 1 / 2] (by norm_num)).1
    (by norm_num [sampleVar, listMean])

end Backtest
